import Mathlib

/-!
Verification of the Chess2 authoritative server (`server.js`) and the
chess-rule module `ChessGame` (`public/js/game.js`).

The server keeps a sparse infinite board as a JavaScript `Map` whose keys are
the strings `"x,y"`; for integer coordinates this keying is injective, so the
board is embedded as an association list over `Int × Int` with the `Map`
semantics of `get` / `set` / `delete` (at most one entry per key, `set`
replaces in place or appends).  Player UUIDs are embedded as naturals drawn
from a fresh counter (`uuidv4` never collides with an existing id).  The
spiral spawn-candidate stream `(round(r·cos θ), round(r·sin θ))` of
`findSpawnPosition` is transcendental, so it is passed to the embedded
function as an explicit list of integer points; the bounded attempt count is
modelled by the list being finite, and `none` models the exhausted-spiral
fallback path.  The JS distance test `Math.sqrt(dx²+dy²) >= minDistance` on
exact integer inputs agrees with the exact comparison, embedded as
`minDistance² ≤ dx²+dy²`.
-/

namespace Chess2

/-- The six piece types of `game.js` / `server.js`. -/
inductive PieceType
  | pawn | knight | bishop | rook | queen | king
deriving DecidableEq, Repr

/-- A piece object as built by `spawnPlayerPieces` (server.js 121-140):
`{ type, x, y, color, playerId }`.  The CSS color string is represented by
the palette index that determines it; `playerId` is `ownerId` here. -/
structure Piece where
  type : PieceType
  x : Int
  y : Int
  colorIndex : Nat
  ownerId : Nat
deriving DecidableEq, Repr

/-- A player object as built by `join-game` (server.js 169-177).
`joinedAt : Date.now()` and `socketId` play no role in any game-state rule
and are omitted. -/
structure Player where
  id : Nat
  name : String
  colorIndex : Nat
  isActive : Bool
deriving DecidableEq, Repr

section MapOps

variable {α β : Type} [DecidableEq α]

/-- JavaScript `Map.get`. -/
def mapGet : List (α × β) → α → Option β
  | [], _ => none
  | (k, v) :: rest, k' => if k = k' then some v else mapGet rest k'

/-- JavaScript `Map.set`: replaces the entry in place when the key is
present, otherwise appends. -/
def mapSet : List (α × β) → α → β → List (α × β)
  | [], k, v => [(k, v)]
  | (k', v') :: rest, k, v =>
      if k' = k then (k, v) :: rest else (k', v') :: mapSet rest k v

/-- JavaScript `Map.delete`. -/
def mapDelete : List (α × β) → α → List (α × β)
  | [], _ => []
  | (k', v') :: rest, k => if k' = k then rest else (k', v') :: mapDelete rest k

/-- `Map.keys()`. -/
def keys (m : List (α × β)) : List α := m.map Prod.fst

end MapOps

/-- Coordinate of a board entry. -/
abbrev Coord := Int × Int

/-- A board: the `gameState.board` map. -/
abbrev Board := List (Coord × Piece)

/-- `const MAX_PLAYERS = 100` (server.js 12). -/
def MAX_PLAYERS : Nat := 100

/-- Squared Euclidean distance between two integer points. -/
def distSq (a b : Coord) : Int := (a.1 - b.1) ^ 2 + (a.2 - b.2) ^ 2

/-- The positions collected by `findSpawnPosition` (server.js 50-55): the
coordinates of every board entry whose piece has a truthy `playerId`.  Every
piece `server.js` ever stores carries the non-empty UUID of its owner, so
the filter keeps all entries. -/
def existingPositions (board : Board) : List Coord := keys board

/-- The candidate test of the spiral loop (server.js 73-76):
`dist >= minDistance` for every existing position, with the double-precision
`Math.sqrt` comparison rendered exactly on squares. -/
def validSpawn (positions : List Coord) (minDistance : Int) (c : Coord) : Bool :=
  positions.all fun p => decide (minDistance * minDistance ≤ distSq c p)

/-- First accepted candidate of the spiral loop (server.js 68-90). -/
def firstValid (positions : List Coord) (minDistance : Int) :
    List Coord → Option Coord
  | [] => none
  | c :: cs =>
      if validSpawn positions minDistance c then some c
      else firstValid positions minDistance cs

/-- `findSpawnPosition(minDistance)` (server.js 46-114).  `cands` is the
spiral candidate stream `(round(r·cos θ), round(r·sin θ))`, abstract here
because it is transcendental; its first element in the real stream is
`(minDistance, 0)` (`θ = 0`).  `none` stands for the exhausted-spiral
fallback scan (server.js 92-113). -/
def findSpawnPosition (cands : List Coord) (minDistance : Int) (board : Board) :
    Option Coord :=
  let positions := existingPositions board
  if positions.isEmpty then some (0, 0)
  else firstValid positions minDistance cands

/-- The sixteen piece offsets of `spawnPlayerPieces` (server.js 121-140):
back row at `y`, pawns at `y+1`, files `x-3 .. x+4`. -/
def pieceOffsets : List (PieceType × Int × Int) :=
  [(.rook, -3, 0), (.knight, -2, 0), (.bishop, -1, 0), (.queen, 0, 0),
   (.king, 1, 0), (.bishop, 2, 0), (.knight, 3, 0), (.rook, 4, 0),
   (.pawn, -3, 1), (.pawn, -2, 1), (.pawn, -1, 1), (.pawn, 0, 1),
   (.pawn, 1, 1), (.pawn, 2, 1), (.pawn, 3, 1), (.pawn, 4, 1)]

/-- The board key written for one spawned piece. -/
def spawnKey (anchor : Coord) (t : PieceType × Int × Int) : Coord :=
  (anchor.1 + t.2.1, anchor.2 + t.2.2)

/-- One iteration of the `pieces.forEach` loop of `spawnPlayerPieces`
(server.js 143-146): build the piece object and `board.set` it. -/
def spawnPut (pid colorIdx : Nat) (anchor : Coord) (b : Board)
    (t : PieceType × Int × Int) : Board :=
  mapSet b (spawnKey anchor t)
    { type := t.1, x := anchor.1 + t.2.1, y := anchor.2 + t.2.2,
      colorIndex := colorIdx, ownerId := pid }

/-- `spawnPlayerPieces(playerId, playerColor)` (server.js 117-150) applied at
a given anchor: sets all sixteen pieces on the board. -/
def spawnPlayerPieces (pid colorIdx : Nat) (anchor : Coord) (board : Board) :
    Board :=
  pieceOffsets.foldl (spawnPut pid colorIdx anchor) board

/-- The whole `gameState` (server.js 15-20) plus the fresh-UUID counter. -/
structure GameState where
  players : List (Nat × Player)
  board : Board
  nextPlayerIndex : Nat
  nextId : Nat
deriving DecidableEq, Repr

/-- The empty initial state (`initializeBoard` leaves the board empty). -/
def initState : GameState :=
  { players := [], board := [], nextPlayerIndex := 0, nextId := 0 }

/-- Destination of an outbound socket.io message. -/
inductive Target
  | sender | others | all
deriving DecidableEq, Repr

/-- Outbound events of the server (payloads reduced to the fields the
specification talks about). -/
inductive Ev
  | gameFull
  | gameJoined (playerId : Nat)
  | playerJoined (playerId : Nat)
  | invalidMove (msg : String)
  | pieceMoved (playerId : Nat) (fromX fromY toX toY : Int)
  | boardSection (pieces : List Piece)
  | playerLeft (playerId : Nat)
deriving DecidableEq, Repr

/-- Inbound commands.  `sid` is the `socket.playerId` binding of the issuing
connection (`none` when no `join-game` succeeded on it).  A `join` carries
the spiral candidate stream and the fallback-scan result as oracles (both
transcendental in the source, see `findSpawnPosition`). -/
inductive Cmd
  | join (name : Option String) (cands : List Coord) (fallback : Coord)
  | move (sid : Option Nat) (fromX fromY toX toY : Int)
  | query (minX maxX minY maxY : Int)
  | disconnect (sid : Option Nat)
deriving DecidableEq, Repr

/-- Integers `lo, lo+1, …, hi` (the inclusive double loop of
`get-board-section`, server.js 251-252). -/
def intRange (lo hi : Int) : List Int :=
  (List.range (hi + 1 - lo).toNat).map fun i : Nat => lo + (i : Int)

/-- `get-board-section` (server.js 244-262): collect every piece inside the
inclusive rectangle whose owner is in the active registry, re-attaching the
loop coordinates (`{ ...piece, x, y }`). -/
def querySection (board : Board) (activeIds : List Nat)
    (minX maxX minY maxY : Int) : List Piece :=
  (intRange minX maxX).flatMap fun x =>
    (intRange minY maxY).flatMap fun y =>
      match mapGet board (x, y) with
      | some p =>
          if p.ownerId ∈ activeIds then [{ p with x := x, y := y }]
          else []
      | none => []

/-- One step of the server's single-threaded command loop
(server.js 156-286).  Returns the next state and the emitted events. -/
def step (s : GameState) : Cmd → GameState × List (Target × Ev)
  | .join name cands fallback =>
      if MAX_PLAYERS ≤ s.players.length then (s, [(.sender, .gameFull)])
      else
        let pid := s.nextId
        let player : Player :=
          { id := pid,
            name := name.getD ("Player" ++ toString (s.players.length + 1)),
            colorIndex := s.nextPlayerIndex, isActive := true }
        let anchor := (findSpawnPosition cands 25 s.board).getD fallback
        ({ players := mapSet s.players pid player,
           board := spawnPlayerPieces pid s.nextPlayerIndex anchor s.board,
           nextPlayerIndex := s.nextPlayerIndex + 1,
           nextId := s.nextId + 1 },
         [(.sender, .gameJoined pid), (.others, .playerJoined pid)])
  | .move sid fromX fromY toX toY =>
      match sid with
      | none => (s, [])
      | some pid =>
          match mapGet s.players pid with
          | none => (s, [])
          | some player =>
              match mapGet s.board (fromX, fromY) with
              | none => (s, [(.sender, .invalidMove "Not your piece")])
              | some piece =>
                  if piece.ownerId ≠ player.id then
                    (s, [(.sender, .invalidMove "Not your piece")])
                  else
                    let board := mapSet (mapDelete s.board (fromX, fromY))
                      (toX, toY) { piece with x := toX, y := toY }
                    ({ s with board := board },
                     [(.all, .pieceMoved player.id fromX fromY toX toY)])
  | .query minX maxX minY maxY =>
      (s, [(.sender,
            .boardSection (querySection s.board (keys s.players)
              minX maxX minY maxY))])
  | .disconnect sid =>
      match sid with
      | none => (s, [])
      | some pid =>
          match mapGet s.players pid with
          | none => (s, [])
          | some _ =>
              ({ s with players := mapDelete s.players pid },
               [(.others, .playerLeft pid)])

/-- States reachable from the empty initial state by any command sequence. -/
inductive Reachable : GameState → Prop
  | init : Reachable initState
  | next {s : GameState} (c : Cmd) : Reachable s → Reachable (step s c).1

/-! ## The `ChessGame` rule module (`public/js/game.js`)

These are the movement rules of `ChessGame`.  `server.js` never calls them:
its `move-piece` handler checks only that a piece exists at the source and
belongs to the requesting player. -/

namespace ChessGame

/-- `ChessGame.validatePawnMove` (game.js): one cardinal step onto an empty
square or an opposing piece. -/
def validatePawnMove (piece : Piece) (dx dy : Int) (board : Board)
    (fromX fromY : Int) : Bool :=
  let adx := |dx|
  let ady := |dy|
  if (adx = 1 ∧ ady = 0) ∨ (adx = 0 ∧ ady = 1) then
    match mapGet board (fromX + dx, fromY + dy) with
    | none => true
    | some target => target.ownerId ≠ piece.ownerId
  else false

/-- `ChessGame.validateKnightMove`: L-shape. -/
def validateKnightMove (adx ady : Int) : Bool :=
  (adx = 2 ∧ ady = 1) ∨ (adx = 1 ∧ ady = 2)

/-- `ChessGame.validateKingMove`: one square in any direction. -/
def validateKingMove (adx ady : Int) : Bool :=
  adx ≤ 1 ∧ ady ≤ 1 ∧ 0 < adx + ady

/-- `ChessGame.validateLinearMove`: walk the unit step vector from the square
after `from` up to (excluding) `to`; every visited square must be empty, and
the destination must be empty or hold an opposing piece.  The JS `while` loop
is rendered as the explicit list of strictly-intermediate squares; the two
agree on every input the rook/bishop/queen guards let through (the step
vector is aligned with `to - from` there).  The JS dereferences
`movingPiece.playerId`, so the branch where no piece stands at `from` (which
throws in JS, and is unreachable through `isMoveLegal`) is rendered as
rejection. -/
def validateLinearMove (dx dy : Int) (board : Board)
    (fromX fromY toX toY : Int) : Bool :=
  let stepX := Int.sign dx
  let stepY := Int.sign dy
  let between := (List.range (max dx.natAbs dy.natAbs - 1)).map
    fun i => (fromX + stepX * ((i : Int) + 1), fromY + stepY * ((i : Int) + 1))
  (between.all fun c => (mapGet board c).isNone) &&
    match mapGet board (toX, toY), mapGet board (fromX, fromY) with
    | none, _ => true
    | some target, some movingPiece => target.ownerId ≠ movingPiece.ownerId
    | some _, none => false

/-- `ChessGame.validateRookMove`: horizontal or vertical, clear path. -/
def validateRookMove (dx dy : Int) (board : Board)
    (fromX fromY toX toY : Int) : Bool :=
  if dx ≠ 0 ∧ dy ≠ 0 then false
  else validateLinearMove dx dy board fromX fromY toX toY

/-- `ChessGame.validateBishopMove`: diagonal, clear path. -/
def validateBishopMove (dx dy : Int) (board : Board)
    (fromX fromY toX toY : Int) : Bool :=
  if |dx| ≠ |dy| then false
  else validateLinearMove dx dy board fromX fromY toX toY

/-- `ChessGame.validateQueenMove`: rook or bishop shape, clear path. -/
def validateQueenMove (dx dy : Int) (board : Board)
    (fromX fromY toX toY : Int) : Bool :=
  if dx ≠ 0 ∧ dy ≠ 0 ∧ |dx| ≠ |dy| then false
  else validateLinearMove dx dy board fromX fromY toX toY

/-- `ChessGame.validateMove` (game.js 279-304): dispatch on the piece type. -/
def validateMove (piece : Piece) (fromX fromY toX toY : Int) (board : Board) :
    Bool :=
  let dx := toX - fromX
  let dy := toY - fromY
  let adx := |dx|
  let ady := |dy|
  match piece.type with
  | .pawn => validatePawnMove piece dx dy board fromX fromY
  | .rook => validateRookMove dx dy board fromX fromY toX toY
  | .knight => validateKnightMove adx ady
  | .bishop => validateBishopMove dx dy board fromX fromY toX toY
  | .queen => validateQueenMove dx dy board fromX fromY toX toY
  | .king => validateKingMove adx ady

/-- The move payload of `ChessGame.isMoveLegal`. -/
structure MoveRequest where
  fromX : Int
  fromY : Int
  toX : Int
  toY : Int
  playerId : Nat
deriving DecidableEq, Repr

/-- `ChessGame.isValidPosition`: `Number.isInteger` on both coordinates,
always true for integer coordinates. -/
def isValidPosition (_x _y : Int) : Bool := true

/-- `ChessGame.wouldExposeKing`: stubbed to `false` in the source itself. -/
def wouldExposeKing (_mv : MoveRequest) (_board : Board) (_pid : Nat) : Bool :=
  false

/-- `ChessGame.isMoveLegal` (game.js 548-569); `some reason` is
`{ valid: false, reason }`, `none` is `{ valid: true }`. -/
def isMoveLegal (mv : MoveRequest) (board : Board) : Option String :=
  match mapGet board (mv.fromX, mv.fromY) with
  | none => some "No piece at source position"
  | some piece =>
      if piece.ownerId ≠ mv.playerId then some "Not your piece"
      else if ¬ isValidPosition mv.toX mv.toY then some "Invalid target position"
      else if ¬ validateMove piece mv.fromX mv.fromY mv.toX mv.toY board then
        some "Invalid move for this piece"
      else if wouldExposeKing mv board mv.playerId then
        some "Move would expose king"
      else none

end ChessGame

/-- The position fields stored inside each piece agree with the key the
piece is stored under. -/
def BoardConsistent (b : Board) : Prop :=
  ∀ e ∈ b, e.2.x = e.1.1 ∧ e.2.y = e.1.2

/-- Inductive invariant of the server state: the board and registry maps
have no duplicate keys, a registered player's `id` field is its key and is
below the fresh-id counter, and each piece's stored position equals its
key. -/
def Inv (s : GameState) : Prop :=
  (keys s.board).Nodup ∧ (keys s.players).Nodup ∧
  (∀ e ∈ s.players, e.2.id = e.1 ∧ e.1 < s.nextId) ∧
  BoardConsistent s.board

/-- One join input: the display name, the spiral candidate stream, and the
fallback-scan oracle (see `Cmd.join`). -/
structure JoinInp where
  name : Option String
  cands : List Coord
  fallback : Coord
deriving DecidableEq, Repr

/-- The command of a join input. -/
def joinCmd (j : JoinInp) : Cmd := Cmd.join j.name j.cands j.fallback

/-- The spawn anchor `findSpawnPosition(25)` chooses for a join on the
current board (`none` when the spiral is exhausted and the fallback scan
would decide instead). -/
def joinAnchor (s : GameState) (j : JoinInp) : Option Coord :=
  findSpawnPosition j.cands 25 s.board

/-- The anchors chosen by a sequence of joins, in join order. -/
def runJoins (s : GameState) : List JoinInp → List Coord
  | [] => []
  | j :: js =>
      (joinAnchor s j).getD j.fallback :: runJoins (step s (joinCmd j)).1 js

/-- Every join of the sequence is below capacity and its spiral search
succeeds, so the fallback path is never taken. -/
def spiralOk (s : GameState) : List JoinInp → Bool
  | [] => true
  | j :: js =>
      (joinAnchor s j).isSome && decide (s.players.length < MAX_PLAYERS) &&
        spiralOk (step s (joinCmd j)).1 js

/-- The state after a single first join on the empty server (the spiral is
not consulted: the board is empty, so the anchor is `(0,0)`). -/
def joined1 : GameState := (step initState (Cmd.join none [] (0, 0))).1

/-! ## Lemmas about the `Map` operations -/

section MapLemmas

variable {α β : Type} [DecidableEq α]

theorem mapGet_mapSet_self (m : List (α × β)) (k : α) (v : β) :
    mapGet (mapSet m k v) k = some v := by
  induction m with
  | nil => simp [mapSet, mapGet]
  | cons e rest ih =>
      obtain ⟨k', v'⟩ := e
      by_cases h : k' = k <;> simp [mapSet, mapGet, h, ih]

theorem mapGet_mapSet_ne (m : List (α × β)) (k k' : α) (v : β) (h : k ≠ k') :
    mapGet (mapSet m k v) k' = mapGet m k' := by
  induction m with
  | nil => simp [mapSet, mapGet, h]
  | cons e rest ih =>
      obtain ⟨k'', v''⟩ := e
      by_cases h2 : k'' = k
      · subst h2
        simp [mapSet, mapGet, h]
      · simp [mapSet, mapGet, h2, ih]

theorem mem_mapSet {m : List (α × β)} {k : α} {v : β} {e : α × β}
    (h : e ∈ mapSet m k v) : e = (k, v) ∨ e ∈ m := by
  induction m with
  | nil => simpa [mapSet] using h
  | cons e' rest ih =>
      obtain ⟨k', v'⟩ := e'
      by_cases h2 : k' = k
      · subst h2
        rcases (by simpa [mapSet] using h : e = (k', v) ∨ e ∈ rest) with h3 | h3
        · exact Or.inl h3
        · exact Or.inr (List.mem_cons_of_mem _ h3)
      · rcases (by simpa [mapSet, h2] using h :
            e = (k', v') ∨ e ∈ mapSet rest k v) with h3 | h3
        · exact Or.inr (by simp [h3])
        · rcases ih h3 with h4 | h4
          · exact Or.inl h4
          · exact Or.inr (List.mem_cons_of_mem _ h4)

theorem mem_keys_mapSet {m : List (α × β)} {k a : α} {v : β}
    (h : a ∈ keys (mapSet m k v)) : a = k ∨ a ∈ keys m := by
  rcases List.mem_map.mp h with ⟨e, he, rfl⟩
  rcases mem_mapSet he with h2 | h2
  · exact Or.inl (by rw [h2])
  · exact Or.inr (List.mem_map.mpr ⟨e, h2, rfl⟩)

theorem keys_nodup_mapSet {m : List (α × β)} (k : α) (v : β)
    (h : (keys m).Nodup) : (keys (mapSet m k v)).Nodup := by
  induction m with
  | nil => simp [mapSet, keys]
  | cons e rest ih =>
      obtain ⟨k', v'⟩ := e
      simp only [keys, List.map_cons, List.nodup_cons] at h
      by_cases h2 : k' = k
      · subst h2
        simpa [mapSet, keys, List.nodup_cons] using h
      · have hker : keys (mapSet ((k', v') :: rest) k v)
            = k' :: keys (mapSet rest k v) := by
          simp [mapSet, h2, keys]
        rw [hker, List.nodup_cons]
        refine ⟨fun hmem => ?_, by simpa [keys] using ih h.2⟩
        rcases mem_keys_mapSet hmem with h3 | h3
        · exact h2 h3
        · exact h.1 (by simpa [keys] using h3)

theorem mapSet_eq_append {m : List (α × β)} {k : α} (v : β)
    (h : k ∉ keys m) : mapSet m k v = m ++ [(k, v)] := by
  induction m with
  | nil => simp [mapSet]
  | cons e rest ih =>
      obtain ⟨k', v'⟩ := e
      simp only [keys, List.map_cons, List.mem_cons] at h
      push_neg at h
      simp [mapSet, Ne.symm h.1, ih (by simpa [keys] using h.2)]

theorem mapDelete_sublist (m : List (α × β)) (k : α) :
    (mapDelete m k).Sublist m := by
  induction m with
  | nil => simp [mapDelete]
  | cons e rest ih =>
      obtain ⟨k', v'⟩ := e
      by_cases h : k' = k
      · simp only [mapDelete, if_pos h]
        exact List.sublist_cons_self (k', v') rest
      · simp only [mapDelete, if_neg h]
        exact ih.cons₂ (k', v')

theorem keys_nodup_mapDelete {m : List (α × β)} (k : α)
    (h : (keys m).Nodup) : (keys (mapDelete m k)).Nodup :=
  List.Nodup.sublist (List.Sublist.map Prod.fst (mapDelete_sublist m k)) h

theorem mapGet_mem {m : List (α × β)} {k : α} {v : β}
    (h : mapGet m k = some v) : (k, v) ∈ m := by
  induction m with
  | nil => simp [mapGet] at h
  | cons e rest ih =>
      obtain ⟨k', v'⟩ := e
      simp only [mapGet] at h
      split at h
      · rename_i heq
        subst heq
        cases h
        exact List.mem_cons_self _ _
      · exact List.mem_cons_of_mem _ (ih h)

theorem mem_keys_of_mapGet_eq_some {m : List (α × β)} {k : α} {v : β}
    (h : mapGet m k = some v) : k ∈ keys m :=
  List.mem_map.mpr ⟨(k, v), mapGet_mem h, rfl⟩

theorem mapGet_mapDelete_ne (m : List (α × β)) (k k' : α) (h : k' ≠ k) :
    mapGet (mapDelete m k) k' = mapGet m k' := by
  induction m with
  | nil => rfl
  | cons e rest ih =>
      obtain ⟨k'', v''⟩ := e
      by_cases h2 : k'' = k
      · subst h2
        have hne : ¬ (k'' = k') := fun hh => h hh.symm
        simp [mapDelete, mapGet, hne]
      · by_cases h3 : k'' = k'
        · subst h3
          simp [mapDelete, mapGet, h2]
        · simp [mapDelete, mapGet, h2, h3, ih]

theorem mapGet_mapDelete_self {m : List (α × β)} (k : α)
    (h : (keys m).Nodup) : mapGet (mapDelete m k) k = none := by
  induction m with
  | nil => rfl
  | cons e rest ih =>
      obtain ⟨k', v'⟩ := e
      simp only [keys, List.map_cons, List.nodup_cons] at h
      by_cases h2 : k' = k
      · subst h2
        have hdel : mapDelete ((k', v') :: rest) k' = rest := by
          simp [mapDelete]
        rw [hdel]
        cases h3 : mapGet rest k' with
        | none => rfl
        | some w =>
            exact absurd (by simpa [keys] using mem_keys_of_mapGet_eq_some h3)
              h.1
      · simp [mapDelete, mapGet, h2, ih (by simpa [keys] using h.2)]

end MapLemmas

/-! ## Lemmas about spawning -/

theorem distSq_comm (a b : Coord) : distSq a b = distSq b a := by
  simp only [distSq]
  ring

theorem spawnKey_distSq_le {t : PieceType × Int × Int} (ht : t ∈ pieceOffsets)
    (anchor : Coord) : distSq (spawnKey anchor t) anchor ≤ 17 := by
  have hform : distSq (spawnKey anchor t) anchor = t.2.1 ^ 2 + t.2.2 ^ 2 := by
    simp only [distSq, spawnKey]
    ring
  have hall : ∀ u ∈ pieceOffsets, u.2.1 ^ 2 + u.2.2 ^ 2 ≤ (17 : Int) := by
    decide
  rw [hform]
  exact hall t ht

theorem mapGet_spawnFold_far (pid ci : Nat) (anchor : Coord)
    (offs : List (PieceType × Int × Int)) (b : Board) (k : Coord)
    (h : ∀ t ∈ offs, spawnKey anchor t ≠ k) :
    mapGet (offs.foldl (spawnPut pid ci anchor) b) k = mapGet b k := by
  induction offs generalizing b with
  | nil => rfl
  | cons t ts ih =>
      rw [List.foldl_cons,
        ih _ (fun t' ht' => h t' (List.mem_cons_of_mem _ ht'))]
      exact mapGet_mapSet_ne _ _ _ _ (h t (List.mem_cons_self _ _))

theorem isSome_mapGet_spawnFold_mono (pid ci : Nat) (anchor : Coord)
    (offs : List (PieceType × Int × Int)) (b : Board) (k : Coord)
    (h : (mapGet b k).isSome) :
    (mapGet (offs.foldl (spawnPut pid ci anchor) b) k).isSome := by
  induction offs generalizing b with
  | nil => exact h
  | cons t ts ih =>
      rw [List.foldl_cons]
      apply ih
      by_cases hk : spawnKey anchor t = k
      · rw [spawnPut, hk, mapGet_mapSet_self]
        rfl
      · rw [spawnPut, mapGet_mapSet_ne _ _ _ _ hk]
        exact h

theorem isSome_mapGet_spawnFold_of_mem (pid ci : Nat) (anchor : Coord)
    (offs : List (PieceType × Int × Int)) (b : Board) (k : Coord)
    (h : ∃ t ∈ offs, spawnKey anchor t = k) :
    (mapGet (offs.foldl (spawnPut pid ci anchor) b) k).isSome := by
  induction offs generalizing b with
  | nil =>
      obtain ⟨t, ht, _⟩ := h
      cases ht
  | cons t ts ih =>
      obtain ⟨t', ht', hk⟩ := h
      rcases List.mem_cons.mp ht' with rfl | hmem
      · rw [List.foldl_cons]
        apply isSome_mapGet_spawnFold_mono
        rw [spawnPut, hk, mapGet_mapSet_self]
        rfl
      · rw [List.foldl_cons]
        exact ih _ ⟨t', hmem, hk⟩

/-- The anchor square itself is occupied after a spawn (the queen sits on
it, server.js 126). -/
theorem anchor_occupied_spawn (pid ci : Nat) (anchor : Coord) (b : Board) :
    (mapGet (spawnPlayerPieces pid ci anchor b) anchor).isSome := by
  apply isSome_mapGet_spawnFold_of_mem
  refine ⟨(.queen, 0, 0), by simp [pieceOffsets], ?_⟩
  simp [spawnKey]

/-- Spawning touches only squares within distance `√17` of the anchor: any
square at squared distance `≥ 625` keeps its occupant. -/
theorem mapGet_spawn_preserve (pid ci : Nat) (anchor k : Coord) (b : Board)
    (h : 625 ≤ distSq anchor k) :
    mapGet (spawnPlayerPieces pid ci anchor b) k = mapGet b k := by
  apply mapGet_spawnFold_far
  intro t ht heq
  have h17 := spawnKey_distSq_le ht anchor
  rw [heq, distSq_comm] at h17
  linarith

theorem keys_nodup_spawnFold (pid ci : Nat) (anchor : Coord)
    (offs : List (PieceType × Int × Int)) (b : Board)
    (h : (keys b).Nodup) :
    (keys (offs.foldl (spawnPut pid ci anchor) b)).Nodup := by
  induction offs generalizing b with
  | nil => exact h
  | cons t ts ih =>
      rw [List.foldl_cons]
      exact ih _ (keys_nodup_mapSet _ _ h)

/-! ## The state invariant -/

theorem boardConsistent_mapSet {b : Board} {k : Coord} {v : Piece}
    (hb : BoardConsistent b) (hv : v.x = k.1 ∧ v.y = k.2) :
    BoardConsistent (mapSet b k v) := by
  intro e he
  rcases mem_mapSet he with rfl | h2
  · exact hv
  · exact hb e h2

theorem boardConsistent_sublist {b b' : Board} (hsub : b'.Sublist b)
    (hb : BoardConsistent b) : BoardConsistent b' :=
  fun e he => hb e (hsub.subset he)

theorem boardConsistent_spawnFold (pid ci : Nat) (anchor : Coord)
    (offs : List (PieceType × Int × Int)) (b : Board)
    (hb : BoardConsistent b) :
    BoardConsistent (offs.foldl (spawnPut pid ci anchor) b) := by
  induction offs generalizing b with
  | nil => exact hb
  | cons t ts ih =>
      rw [List.foldl_cons]
      exact ih _ (boardConsistent_mapSet hb ⟨rfl, rfl⟩)

theorem inv_init : Inv initState := by
  refine ⟨?_, ?_, ?_, ?_⟩ <;> simp [initState, keys, BoardConsistent]

theorem keys_nodup_spawn (pid ci : Nat) (anchor : Coord) (b : Board)
    (h : (keys b).Nodup) :
    (keys (spawnPlayerPieces pid ci anchor b)).Nodup :=
  keys_nodup_spawnFold pid ci anchor pieceOffsets b h

theorem boardConsistent_spawn (pid ci : Nat) (anchor : Coord) (b : Board)
    (hb : BoardConsistent b) :
    BoardConsistent (spawnPlayerPieces pid ci anchor b) :=
  boardConsistent_spawnFold pid ci anchor pieceOffsets b hb

/-! ## Branch equations for `step` -/

/-- `join-game` at capacity (server.js 161-164). -/
theorem step_join_full {s : GameState} (name : Option String)
    (cands : List Coord) (fb : Coord)
    (hcap : MAX_PLAYERS ≤ s.players.length) :
    step s (Cmd.join name cands fb) = (s, [(.sender, .gameFull)]) := by
  simp only [step, if_pos hcap]

/-- `join-game` below capacity (server.js 166-207). -/
theorem step_join_below {s : GameState} (name : Option String)
    (cands : List Coord) (fb : Coord)
    (hcap : ¬ MAX_PLAYERS ≤ s.players.length) :
    step s (Cmd.join name cands fb) =
      ({ players := mapSet s.players s.nextId
           { id := s.nextId,
             name := name.getD ("Player" ++ toString (s.players.length + 1)),
             colorIndex := s.nextPlayerIndex, isActive := true },
         board := spawnPlayerPieces s.nextId s.nextPlayerIndex
           ((findSpawnPosition cands 25 s.board).getD fb) s.board,
         nextPlayerIndex := s.nextPlayerIndex + 1, nextId := s.nextId + 1 },
       [(.sender, .gameJoined s.nextId), (.others, .playerJoined s.nextId)]) := by
  simp only [step, if_neg hcap]

/-- `move-piece` from a connection that never joined (server.js 212-213). -/
theorem step_move_nosid (s : GameState) (fx fy tx ty : Int) :
    step s (Cmd.move none fx fy tx ty) = (s, []) := rfl

/-- `move-piece` whose stored player id is no longer registered. -/
theorem step_move_unknown {s : GameState} {pid : Nat} (fx fy tx ty : Int)
    (h : mapGet s.players pid = none) :
    step s (Cmd.move (some pid) fx fy tx ty) = (s, []) := by
  simp only [step, h]

/-- `move-piece` with no piece at the source (server.js 222-225). -/
theorem step_move_nopiece {s : GameState} {pid : Nat} {player : Player}
    (fx fy tx ty : Int) (hpl : mapGet s.players pid = some player)
    (hpc : mapGet s.board (fx, fy) = none) :
    step s (Cmd.move (some pid) fx fy tx ty) =
      (s, [(.sender, .invalidMove "Not your piece")]) := by
  simp only [step, hpl, hpc]

/-- `move-piece` on a piece the requester does not own (server.js 222-225). -/
theorem step_move_notowner {s : GameState} {pid : Nat} {player : Player}
    {piece : Piece} (fx fy tx ty : Int)
    (hpl : mapGet s.players pid = some player)
    (hpc : mapGet s.board (fx, fy) = some piece)
    (hown : piece.ownerId ≠ player.id) :
    step s (Cmd.move (some pid) fx fy tx ty) =
      (s, [(.sender, .invalidMove "Not your piece")]) := by
  simp only [step, hpl, hpc, if_pos hown]

/-- `move-piece` accepted: delete the source entry, update the piece's
position fields, set the destination entry (server.js 227-231). -/
theorem step_move_applied {s : GameState} {pid : Nat} {player : Player}
    {piece : Piece} (fx fy tx ty : Int)
    (hpl : mapGet s.players pid = some player)
    (hpc : mapGet s.board (fx, fy) = some piece)
    (hown : piece.ownerId = player.id) :
    step s (Cmd.move (some pid) fx fy tx ty) =
      ({ s with board := (mapSet (mapDelete s.board (fx, fy)) (tx, ty)
           { piece with x := tx, y := ty }) },
       [(.all, .pieceMoved player.id fx fy tx ty)]) := by
  simp only [step, hpl, hpc, if_neg (not_not_intro hown)]

/-- `get-board-section` answers the sender and changes nothing. -/
theorem step_query_eq (s : GameState) (minX maxX minY maxY : Int) :
    step s (Cmd.query minX maxX minY maxY) =
      (s, [(.sender, .boardSection
        (querySection s.board (keys s.players) minX maxX minY maxY))]) := rfl

/-- `disconnect` of a connection that never joined (server.js 266-267). -/
theorem step_disc_nosid (s : GameState) :
    step s (Cmd.disconnect none) = (s, []) := rfl

/-- `disconnect` whose stored player id is not registered. -/
theorem step_disc_unknown {s : GameState} {pid : Nat}
    (h : mapGet s.players pid = none) :
    step s (Cmd.disconnect (some pid)) = (s, []) := by
  simp only [step, h]

/-- `disconnect` of a registered player (server.js 267-283). -/
theorem step_disc_known {s : GameState} {pid : Nat} {player : Player}
    (h : mapGet s.players pid = some player) :
    step s (Cmd.disconnect (some pid)) =
      ({ s with players := mapDelete s.players pid },
       [(.others, .playerLeft pid)]) := by
  simp only [step, h]

theorem inv_step (s : GameState) (c : Cmd) (h : Inv s) : Inv (step s c).1 := by
  obtain ⟨hb, hp, hid, hc⟩ := h
  cases c with
  | join name cands fb =>
      by_cases hcap : MAX_PLAYERS ≤ s.players.length
      · rw [step_join_full name cands fb hcap]
        exact ⟨hb, hp, hid, hc⟩
      · simp only [step_join_below name cands fb hcap]
        refine ⟨?_, ?_, ?_, ?_⟩ <;> dsimp only
        · exact keys_nodup_spawn _ _ _ _ hb
        · exact keys_nodup_mapSet _ _ hp
        · intro e he
          rcases mem_mapSet he with rfl | h2
          · exact ⟨rfl, Nat.lt_succ_self _⟩
          · obtain ⟨h3, h4⟩ := hid e h2
            exact ⟨h3, Nat.lt_succ_of_lt h4⟩
        · exact boardConsistent_spawn _ _ _ _ hc
  | move sid fx fy tx ty =>
      cases sid with
      | none =>
          rw [step_move_nosid]
          exact ⟨hb, hp, hid, hc⟩
      | some pid =>
          cases hpl : mapGet s.players pid with
          | none =>
              rw [step_move_unknown fx fy tx ty hpl]
              exact ⟨hb, hp, hid, hc⟩
          | some player =>
              cases hpc : mapGet s.board (fx, fy) with
              | none =>
                  rw [step_move_nopiece fx fy tx ty hpl hpc]
                  exact ⟨hb, hp, hid, hc⟩
              | some piece =>
                  by_cases hown : piece.ownerId = player.id
                  · simp only [step_move_applied fx fy tx ty hpl hpc hown]
                    refine ⟨?_, ?_, ?_, ?_⟩ <;> dsimp only
                    · exact keys_nodup_mapSet _ _ (keys_nodup_mapDelete _ hb)
                    · exact hp
                    · exact hid
                    · exact boardConsistent_mapSet
                        (boardConsistent_sublist (mapDelete_sublist _ _) hc)
                        ⟨rfl, rfl⟩
                  · rw [step_move_notowner fx fy tx ty hpl hpc hown]
                    exact ⟨hb, hp, hid, hc⟩
  | query minX maxX minY maxY => exact ⟨hb, hp, hid, hc⟩
  | disconnect sid =>
      cases sid with
      | none =>
          rw [step_disc_nosid]
          exact ⟨hb, hp, hid, hc⟩
      | some pid =>
          cases hpl : mapGet s.players pid with
          | none =>
              rw [step_disc_unknown hpl]
              exact ⟨hb, hp, hid, hc⟩
          | some player =>
              simp only [step_disc_known hpl]
              refine ⟨?_, ?_, ?_, ?_⟩ <;> dsimp only
              · exact hb
              · exact keys_nodup_mapDelete _ hp
              · exact fun e he => hid e ((mapDelete_sublist _ _).subset he)
              · exact hc

/-! ## Lemmas for the section query -/

theorem mem_intRange {lo hi a : Int} : a ∈ intRange lo hi ↔ lo ≤ a ∧ a ≤ hi := by
  constructor
  · intro h
    obtain ⟨i, hi2, hEq⟩ := List.mem_map.mp h
    rw [List.mem_range] at hi2
    subst hEq
    omega
  · rintro ⟨h1, h2⟩
    exact List.mem_map.mpr
      ⟨(a - lo).toNat, List.mem_range.mpr (by omega), by omega⟩

theorem mem_queryCell (board : Board) (activeIds : List Nat) (x y : Int)
    (p : Piece) :
    (p ∈ (match mapGet board (x, y) with
          | some q =>
              if q.ownerId ∈ activeIds then [{ q with x := x, y := y }]
              else []
          | none => ([] : List Piece))) ↔
      ∃ q : Piece, mapGet board (x, y) = some q ∧ q.ownerId ∈ activeIds ∧
        p = { q with x := x, y := y } := by
  cases h : mapGet board (x, y) with
  | none => simp
  | some q =>
      by_cases hmem : q.ownerId ∈ activeIds <;> simp [hmem]

/-! ## Lemmas for the spiral search -/

theorem firstValid_valid {ps : List Coord} {minD : Int} {cs : List Coord}
    {c : Coord} (h : firstValid ps minD cs = some c) :
    validSpawn ps minD c = true := by
  induction cs with
  | nil => simp [firstValid] at h
  | cons c0 cs ih =>
      by_cases h0 : validSpawn ps minD c0
      · rw [firstValid, if_pos h0] at h
        cases h
        exact h0
      · rw [firstValid, if_neg h0] at h
        exact ih h

theorem validSpawn_spec {ps : List Coord} {minD : Int} {c : Coord}
    (h : validSpawn ps minD c = true) :
    ∀ p ∈ ps, minD * minD ≤ distSq c p := by
  intro p hp
  simpa using List.all_eq_true.mp h p hp

theorem findSpawn_cases {cands : List Coord} {minD : Int} {b : Board}
    {c : Coord} (h : findSpawnPosition cands minD b = some c) :
    (b = [] ∧ c = (0, 0)) ∨ validSpawn (keys b) minD c = true := by
  simp only [findSpawnPosition] at h
  by_cases hb : (existingPositions b).isEmpty
  · rw [if_pos hb] at h
    cases h
    exact Or.inl ⟨List.map_eq_nil_iff.mp (List.isEmpty_iff.mp hb), rfl⟩
  · rw [if_neg hb] at h
    exact Or.inr (firstValid_valid h)

/-- Main induction for spawn separation: if every coordinate in `A` is
occupied, each anchor chosen by a successful spiral run is at squared
distance ≥ 625 from all of `A` and from every other chosen anchor. -/
theorem runJoins_sep_aux (js : List JoinInp) (s : GameState) (A : List Coord)
    (hocc : ∀ a ∈ A, (mapGet s.board a).isSome)
    (hok : spiralOk s js = true) :
    (∀ a ∈ A, ∀ b ∈ runJoins s js, 625 ≤ distSq a b) ∧
    (runJoins s js).Pairwise (fun a b => 625 ≤ distSq a b) := by
  induction js generalizing s A with
  | nil =>
      exact ⟨fun a _ b hb => absurd hb (List.not_mem_nil b), List.Pairwise.nil⟩
  | cons j js ih =>
      rw [spiralOk] at hok
      obtain ⟨⟨h1, h2⟩, h3⟩ := by simpa [Bool.and_eq_true] using hok
      obtain ⟨a0, ha0⟩ := Option.isSome_iff_exists.mp h1
      have ha0' : findSpawnPosition j.cands 25 s.board = some a0 := ha0
      have hrun : runJoins s (j :: js)
          = a0 :: runJoins (step s (joinCmd j)).1 js := by
        rw [runJoins, joinAnchor, ha0']
        rfl
      have hfar : ∀ k : Coord, (mapGet s.board k).isSome → 625 ≤ distSq a0 k := by
        intro k hk
        rcases findSpawn_cases ha0' with ⟨hbnil, _⟩ | hval
        · rw [hbnil] at hk
          simp [mapGet] at hk
        · obtain ⟨v, hv⟩ := Option.isSome_iff_exists.mp hk
          have := validSpawn_spec hval k (mem_keys_of_mapGet_eq_some hv)
          simpa using this
      have hstep : (step s (joinCmd j)).1.board
          = spawnPlayerPieces s.nextId s.nextPlayerIndex a0 s.board := by
        have hcap : ¬ MAX_PLAYERS ≤ s.players.length := Nat.not_le.mpr h2
        simp only [joinCmd, step_join_below j.name j.cands j.fallback hcap,
          joinAnchor, ha0', Option.getD_some]
      have hocc' : ∀ a ∈ (a0 :: A),
          (mapGet (step s (joinCmd j)).1.board a).isSome := by
        intro a ha
        rcases List.mem_cons.mp ha with rfl | haA
        · rw [hstep]
          exact anchor_occupied_spawn _ _ _ _
        · rw [hstep, mapGet_spawn_preserve _ _ _ _ _ (hfar a (hocc a haA))]
          exact hocc a haA
      obtain ⟨ihA, ihP⟩ := ih (step s (joinCmd j)).1 (a0 :: A) hocc' h3
      rw [hrun]
      constructor
      · intro a haA b hb
        rcases List.mem_cons.mp hb with rfl | hbrest
        · rw [distSq_comm]
          exact hfar a (hocc a haA)
        · exact ihA a (List.mem_cons_of_mem _ haA) b hbrest
      · exact List.Pairwise.cons
          (fun b hb => ihA a0 (List.mem_cons_self _ _) b hb) ihP

theorem inv_reachable {s : GameState} (h : Reachable s) : Inv s := by
  induction h with
  | init => exact inv_init
  | next c _ ih => exact inv_step _ c ih

/-! ## Claim theorems -/

/-- C4: in every state reachable from the initial empty board by any
sequence of join, move, querySection and disconnect commands, no two pieces
occupy the same coordinate: the board map has no duplicate coordinate
keys. -/
theorem occupancy_invariant {s : GameState} (hs : Reachable s) :
    (keys s.board).Nodup :=
  (inv_reachable hs).1

/-- Witness for C4 at the state reached by one join. -/
theorem occupancy_invariant_witness : (keys joined1.board).Nodup :=
  occupancy_invariant (Reachable.next (Cmd.join none [] (0, 0)) Reachable.init)

/-- C9 counterexample: the piece value stored in the board does carry
position fields — after the first join the entry at key `(0,0)` is the
queen object `{ type, x := 0, y := 0, color, playerId }` built by
`spawnPlayerPieces` (server.js 126), so the position is stored redundantly
inside the piece record, contrary to the claim. -/
theorem piece_stores_position_fields :
    mapGet joined1.board (0, 0)
      = some { type := .queen, x := 0, y := 0, colorIndex := 0, ownerId := 0 } := by
  decide

/-- C9 (amended): the position is stored redundantly inside each piece
(fields `x`, `y`), but in every reachable state those fields agree with the
coordinate key the piece is stored under — the two representations never
drift. -/
theorem piece_position_consistent {s : GameState} (hs : Reachable s)
    (k : Coord) (p : Piece) (h : mapGet s.board k = some p) :
    p.x = k.1 ∧ p.y = k.2 :=
  (inv_reachable hs).2.2.2 (k, p) (mapGet_mem h)

/-- Witness for C9's amended theorem at the queen spawned by the first
join. -/
theorem piece_position_consistent_witness :
    ({ type := .queen, x := 0, y := 0, colorIndex := 0, ownerId := 0 } : Piece).x
        = ((0, 0) : Coord).1 ∧
    ({ type := .queen, x := 0, y := 0, colorIndex := 0, ownerId := 0 } : Piece).y
        = ((0, 0) : Coord).2 :=
  piece_position_consistent
    (Reachable.next (Cmd.join none [] (0, 0)) Reachable.init) (0, 0)
    { type := .queen, x := 0, y := 0, colorIndex := 0, ownerId := 0 }
    (by decide)

/-- C7: a join arriving at or above `MAX_PLAYERS` is answered with
`game-full` and changes nothing — no Player is created; a join below
capacity registers exactly one new player (one fresh id is appended to the
registry key list). -/
theorem join_capacity {s : GameState} (hs : Reachable s) (name : Option String)
    (cands : List Coord) (fb : Coord) :
    (MAX_PLAYERS ≤ s.players.length →
      step s (Cmd.join name cands fb) = (s, [(Target.sender, Ev.gameFull)])) ∧
    (s.players.length < MAX_PLAYERS →
      keys (step s (Cmd.join name cands fb)).1.players
        = keys s.players ++ [s.nextId]) := by
  constructor
  · exact fun hcap => step_join_full name cands fb hcap
  · intro hlt
    have hcap : ¬ MAX_PLAYERS ≤ s.players.length := Nat.not_le.mpr hlt
    have hfresh : s.nextId ∉ keys s.players := by
      intro hmem
      obtain ⟨e, he, hfst⟩ := List.mem_map.mp hmem
      have h2 := ((inv_reachable hs).2.2.1 e he).2
      omega
    simp only [step_join_below name cands fb hcap]
    rw [mapSet_eq_append _ hfresh]
    simp [keys]

/-- Witness for C7: the first join on the empty server creates exactly one
player. -/
theorem join_capacity_witness :
    initState.players.length < MAX_PLAYERS ∧
    keys (step initState (Cmd.join none [] (0, 0))).1.players
      = keys initState.players ++ [initState.nextId] :=
  ⟨by decide, (join_capacity Reachable.init none [] (0, 0)).2 (by decide)⟩

/-- C10: disconnecting a joined player removes it from the active registry
and from nothing else: the board map is left identical (all of the player's
pieces stay, with `ownerId` untouched), and every other registry entry is
unchanged. -/
theorem disconnect_keeps_board {s : GameState} (hs : Reachable s) {pid : Nat}
    {pl : Player} (h : mapGet s.players pid = some pl) :
    (step s (Cmd.disconnect (some pid))).1.board = s.board ∧
    mapGet (step s (Cmd.disconnect (some pid))).1.players pid = none ∧
    ∀ q : Nat, q ≠ pid →
      mapGet (step s (Cmd.disconnect (some pid))).1.players q
        = mapGet s.players q := by
  have heq := step_disc_known h
  rw [heq]
  exact ⟨rfl, mapGet_mapDelete_self pid (inv_reachable hs).2.1,
    fun q hq => mapGet_mapDelete_ne _ _ _ hq⟩

/-- Witness for C10: disconnecting the only player after the first join. -/
theorem disconnect_keeps_board_witness :
    (step joined1 (Cmd.disconnect (some 0))).1.board = joined1.board ∧
    mapGet (step joined1 (Cmd.disconnect (some 0))).1.players 0 = none :=
  ⟨(@disconnect_keeps_board joined1
      (Reachable.next (Cmd.join none [] (0, 0)) Reachable.init) 0
      { id := 0, name := "Player1", colorIndex := 0, isActive := true }
      (by decide)).1,
   (@disconnect_keeps_board joined1
      (Reachable.next (Cmd.join none [] (0, 0)) Reachable.init) 0
      { id := 0, name := "Player1", colorIndex := 0, isActive := true }
      (by decide)).2.1⟩

/-- C8 counterexample: a move from a connection with no successful prior
join is a rejected command, but the server emits no error event at all
(`if (!player) return;`, server.js 212-213) — the claim says an error is
reported to the originating connection. -/
theorem unknown_player_move_no_report :
    step initState (Cmd.move none 0 0 1 1) = (initState, []) := rfl

/-- C8 (amended): every rejection leaves the whole state unchanged; the
capacity-rejected join and the no-piece / not-owner moves answer the
originating connection only, while a command from a connection with no
successful prior join is dropped with no report at all. -/
theorem rejection_frame (s : GameState) (pid : Nat) (player : Player)
    (piece : Piece) (fx fy tx ty : Int) (name : Option String)
    (cands : List Coord) (fb : Coord) :
    (step s (Cmd.move none fx fy tx ty) = (s, [])) ∧
    (mapGet s.players pid = none →
      step s (Cmd.move (some pid) fx fy tx ty) = (s, [])) ∧
    (mapGet s.players pid = some player → mapGet s.board (fx, fy) = none →
      step s (Cmd.move (some pid) fx fy tx ty)
        = (s, [(Target.sender, Ev.invalidMove "Not your piece")])) ∧
    (mapGet s.players pid = some player →
      mapGet s.board (fx, fy) = some piece → piece.ownerId ≠ player.id →
      step s (Cmd.move (some pid) fx fy tx ty)
        = (s, [(Target.sender, Ev.invalidMove "Not your piece")])) ∧
    (MAX_PLAYERS ≤ s.players.length →
      step s (Cmd.join name cands fb) = (s, [(Target.sender, Ev.gameFull)])) :=
  ⟨step_move_nosid s fx fy tx ty,
   fun h => step_move_unknown fx fy tx ty h,
   fun h1 h2 => step_move_nopiece fx fy tx ty h1 h2,
   fun h1 h2 h3 => step_move_notowner fx fy tx ty h1 h2 h3,
   fun h => step_join_full name cands fb h⟩

/-- Witness for C8's amended theorem: a move naming an unregistered player
id is dropped without any state change or report. -/
theorem rejection_frame_witness :
    mapGet joined1.players 5 = none ∧
    step joined1 (Cmd.move (some 5) 0 0 1 1) = (joined1, []) :=
  ⟨by decide,
   (rejection_frame joined1 5
      { id := 0, name := "", colorIndex := 0, isActive := true }
      { type := .pawn, x := 0, y := 0, colorIndex := 0, ownerId := 0 }
      0 0 1 1 none [] (0, 0)).2.1 (by decide)⟩

/-- C6: `get-board-section` returns exactly the pieces stored at a
coordinate inside the inclusive rectangle whose owner is in the active
registry (with the loop coordinates re-attached), and the query leaves the
state untouched. -/
theorem query_section_exact (s : GameState) (minX maxX minY maxY : Int)
    (p : Piece) :
    (p ∈ querySection s.board (keys s.players) minX maxX minY maxY ↔
      ∃ x y : Int, (minX ≤ x ∧ x ≤ maxX) ∧ (minY ≤ y ∧ y ≤ maxY) ∧
        ∃ q : Piece, mapGet s.board (x, y) = some q ∧
          q.ownerId ∈ keys s.players ∧ p = { q with x := x, y := y }) ∧
    (step s (Cmd.query minX maxX minY maxY)).1 = s := by
  constructor
  · rw [querySection]
    constructor
    · intro hp
      obtain ⟨x, hx, hp2⟩ := List.mem_flatMap.mp hp
      obtain ⟨y, hy, hp3⟩ := List.mem_flatMap.mp hp2
      obtain ⟨q, hq, hqm, rfl⟩ :=
        (mem_queryCell s.board (keys s.players) x y p).mp hp3
      exact ⟨x, y, mem_intRange.mp hx, mem_intRange.mp hy, q, hq, hqm, rfl⟩
    · rintro ⟨x, y, hx, hy, q, hq, hqm, rfl⟩
      exact List.mem_flatMap.mpr ⟨x, mem_intRange.mpr hx,
        List.mem_flatMap.mpr ⟨y, mem_intRange.mpr hy,
          (mem_queryCell s.board (keys s.players) x y _).mpr ⟨q, hq, hqm, rfl⟩⟩⟩
  · rfl

/-- C1 (code-bug evidence): after the first join, the pawn at `(0,1)` moved
to `(7,9)` violates the pawn rule (`ChessGame.validateMove` rejects it),
yet the server's `move-piece` handler — which checks only existence and
ownership — applies it to the board. -/
theorem illegal_pawn_move_applied :
    mapGet joined1.board (0, 1)
      = some { type := .pawn, x := 0, y := 1, colorIndex := 0, ownerId := 0 } ∧
    ChessGame.validateMove
      { type := .pawn, x := 0, y := 1, colorIndex := 0, ownerId := 0 }
      0 1 7 9 joined1.board = false ∧
    mapGet (step joined1 (Cmd.move (some 0) 0 1 7 9)).1.board (7, 9)
      = some { type := .pawn, x := 7, y := 9, colorIndex := 0, ownerId := 0 } ∧
    mapGet (step joined1 (Cmd.move (some 0) 0 1 7 9)).1.board (0, 1) = none := by
  refine ⟨?_, ?_, ?_, ?_⟩ <;> decide

/-- C2 (code-bug evidence): after the first join, the rook at `(-3,0)`
moved to the empty square `(-3,5)` passes over the own pawn at `(-3,1)` —
`ChessGame.validateLinearMove` rejects the move as path-blocked — yet the
server applies it. -/
theorem blocked_rook_move_applied :
    mapGet joined1.board (-3, 1)
      = some { type := .pawn, x := -3, y := 1, colorIndex := 0, ownerId := 0 } ∧
    mapGet joined1.board (-3, 5) = none ∧
    ChessGame.validateMove
      { type := .rook, x := -3, y := 0, colorIndex := 0, ownerId := 0 }
      (-3) 0 (-3) 5 joined1.board = false ∧
    mapGet (step joined1 (Cmd.move (some 0) (-3) 0 (-3) 5)).1.board (-3, 5)
      = some { type := .rook, x := -3, y := 5, colorIndex := 0, ownerId := 0 } ∧
    mapGet (step joined1 (Cmd.move (some 0) (-3) 0 (-3) 5)).1.board (-3, 0)
      = none := by
  refine ⟨?_, ?_, ?_, ?_, ?_⟩ <;> decide

/-- C3 (code-bug evidence): after the first join, moving the pawn at
`(0,1)` onto the own pawn at `(1,1)` — a same-owner destination, rejected
by `ChessGame.validatePawnMove` — is applied by the server and destroys the
player's own piece: the count drops from 16 to 15. -/
theorem same_owner_capture_applied :
    joined1.board.length = 16 ∧
    mapGet joined1.board (1, 1)
      = some { type := .pawn, x := 1, y := 1, colorIndex := 0, ownerId := 0 } ∧
    ChessGame.validateMove
      { type := .pawn, x := 0, y := 1, colorIndex := 0, ownerId := 0 }
      0 1 1 1 joined1.board = false ∧
    (step joined1 (Cmd.move (some 0) 0 1 1 1)).1.board.length = 15 := by
  refine ⟨?_, ?_, ?_, ?_⟩ <;> decide

/-- C5 counterexample: after the first join the only existing anchor is
`(0,0)`.  With candidate stream `[(25,0), (40,0)]` — and `(25,0)` is
exactly the real spiral's first candidate, `(round(25·cos 0),
round(25·sin 0))` — the first candidate at distance ≥ 25 from every
existing anchor is `(25,0)`, but `findSpawnPosition` accepts `(40,0)`
instead: it checks the distance to every existing piece position (the rook
at `(4,0)` is ≈ 21 away from `(25,0)`), not to every existing anchor. -/
theorem spawn_anchor_ignores_anchor_only_rule :
    runJoins initState [⟨none, [], (0, 0)⟩] = [(0, 0)] ∧
    firstValid [(0, 0)] 25 [(25, 0), (40, 0)] = some (25, 0) ∧
    findSpawnPosition [(25, 0), (40, 0)] 25 joined1.board = some (40, 0) := by
  refine ⟨?_, ?_, ?_⟩ <;> decide

/-- C5 (amended): over any sequence of joins in which every spiral search
succeeds (no fallback scan) and capacity is never reached, the chosen
anchors are pairwise at squared Euclidean distance ≥ 625 = 25², i.e. at
distance ≥ the minimum spawn distance 25; each anchor is the first
candidate whose distance to every existing piece position (not merely every
anchor) meets the minimum, so placement is deterministic in the join
order. -/
theorem spawn_separation (js : List JoinInp)
    (hok : spiralOk initState js = true) :
    (runJoins initState js).Pairwise (fun a b => 625 ≤ distSq a b) :=
  (runJoins_sep_aux js initState []
    (fun a ha => absurd ha (List.not_mem_nil a)) hok).2

/-- Witness for C5: two concrete joins; the second join's spiral stream
starts at the real first candidate `(25,0)` and accepts `(40,0)`; the two
anchors `(0,0)` and `(40,0)` are 40 ≥ 25 apart. -/
theorem spawn_separation_witness :
    spiralOk initState
      [⟨none, [], (0, 0)⟩, ⟨none, [(25, 0), (40, 0)], (0, 0)⟩] = true ∧
    (runJoins initState
      [⟨none, [], (0, 0)⟩, ⟨none, [(25, 0), (40, 0)], (0, 0)⟩]).Pairwise
        (fun a b => 625 ≤ distSq a b) :=
  ⟨by decide, spawn_separation _ (by decide)⟩

end Chess2
